import Mathlib

/-!
Verification of the Battleship repository (game_model.py, protocol.py,
server.py, client.py) against its natural-language specification.

The board of GameBoard (game_model.py) is a 9 x 9 numpy integer grid; we
embed it as a total function from a pair of natural-number indices to the
stored integer value, with cell values given by the CellState enumeration:
EMPTY = 0, SHIP = 1, HIT = 2, MISS = 3.  All operations of the source are
translated one branch at a time.
-/

/-- Cell values of the CellState enumeration in game_model.py. -/
def EMPTY : Nat := 0

/-- CellState.SHIP.value in game_model.py. -/
def SHIP : Nat := 1

/-- CellState.HIT.value in game_model.py. -/
def HIT : Nat := 2

/-- CellState.MISS.value in game_model.py. -/
def MISS : Nat := 3

/-- The two values drawn by np.random.choice for a ship direction in
position_ships (game_model.py line 47): horizontal or vertical. -/
inductive Direction where
  | H
  | V
  deriving DecidableEq

/-- The Ship dataclass of game_model.py: a name, a fixed size, and an
optional anchor position and direction filled in by ship placement. -/
structure Ship where
  name : String
  size : Nat
  position : Option (Nat × Nat)
  direction : Option Direction
  deriving DecidableEq

/-- The board array of GameBoard, board[x][y], as a total function; cells
outside the 9 x 9 grid are never written and read as 0. -/
abbrev Board := Nat → Nat → Nat

/-- The all-zero board built by GameBoard.init (np.zeros). -/
def initBoard : Board := fun _ _ => 0

/-- Functional update of one board cell, board[x, y] = v. -/
def setCell (b : Board) (x y v : Nat) : Board :=
  fun i j => if i = x ∧ j = y then v else b i j

/-- The fixed ship catalog of GameBoard.init: Canberra-class 5,
Hobart-class 4, Leeuwin-class 3, Armidale-class 2, in dict insertion
order C, H, L, A. -/
def shipCatalog : List Ship :=
  [⟨"Canberra-class", 5, none, none⟩,
   ⟨"Hobart-class", 4, none, none⟩,
   ⟨"Leeuwin-class", 3, none, none⟩,
   ⟨"Armidale-class", 2, none, none⟩]

/-- The mutable state of a GameBoard instance: the grid, the two counters
and the ship dictionary (kept as a list in its iteration order). -/
structure GameBoard where
  board : Board
  shot_count : Nat
  hit_count : Nat
  ships : List Ship

/-- A freshly constructed GameBoard (game_model.py lines 30-40): zero
board, zero counters, unplaced catalog ships. -/
def initGame : GameBoard :=
  { board := initBoard, shot_count := 0, hit_count := 0, ships := shipCatalog }

/-- Sum of the sizes of the ships of a GameBoard, the quantity
sum(ship.size for ship in self.ships.values()) of game_model.py. -/
def totalShipSize (g : GameBoard) : Nat :=
  (g.ships.map Ship.size).sum

/-- GameBoard.is_game_over (game_model.py lines 89-91): the hit count
equals the sum of the catalog ship sizes. -/
def is_game_over (g : GameBoard) : Bool :=
  g.hit_count == totalShipSize g

/-- GameBoard.process_shot (game_model.py lines 69-87) at grid indices
(x, y) as produced by coord_to_indices from an in-range coordinate.
If the cell holds SHIP it is set to HIT, both counters grow and the
result is (True, is_game_over()) evaluated on the updated state; if it
holds EMPTY it is set to MISS and only the shot counter grows; otherwise
(already HIT or MISS) the state is returned untouched.  Returns the pair
(result of the Python call, updated state). -/
def process_shot (g : GameBoard) (x y : Nat) : (Bool × Bool) × GameBoard :=
  if g.board x y = SHIP then
    let g' : GameBoard :=
      { g with board := setCell g.board x y HIT,
               hit_count := g.hit_count + 1,
               shot_count := g.shot_count + 1 }
    ((true, is_game_over g'), g')
  else if g.board x y = EMPTY then
    ((false, false),
     { g with board := setCell g.board x y MISS,
              shot_count := g.shot_count + 1 })
  else
    ((false, false), g)

/-- One draw of the random sampler in position_ships (game_model.py lines
46-47): np.random.randint(9, size=2) yields two indices below 9 and
np.random.choice picks a direction. -/
structure Choice where
  x : Fin 9
  y : Fin 9
  dir : Direction
  deriving DecidableEq

/-- GameBoard.is_valid_placement (game_model.py lines 52-58): the run of
size cells starting at (x, y) in the given direction stays inside the
grid and every cell on it is EMPTY.  The final return False of the
source is unreachable because the sampled direction is always H or V. -/
def is_valid_placement (b : Board) (x y size : Nat) : Direction → Bool
  | .H => decide (y + size ≤ 9) && (List.range size).all (fun k => b x (y + k) == EMPTY)
  | .V => decide (x + size ≤ 9) && (List.range size).all (fun k => b (x + k) y == EMPTY)

/-- The board effect of GameBoard.place_ship (game_model.py lines 64-67):
the numpy slice assignment writing SHIP on the run of size cells from
(x, y) in the given direction. -/
def place_cells (b : Board) (x y size : Nat) : Direction → Board
  | .H => fun i j => if i = x ∧ y ≤ j ∧ j < y + size then SHIP else b i j
  | .V => fun i j => if j = y ∧ x ≤ i ∧ i < x + size then SHIP else b i j

/-- The retry loop of position_ships for one ship (game_model.py lines
45-50): draw choices until is_valid_placement accepts one, then place.
The list argument is the stream of random draws; exhausting it models a
run of the unbounded loop that never terminates. -/
def try_place (b : Board) (size : Nat) : List Choice → Option (Board × Choice × List Choice)
  | [] => none
  | c :: cs =>
    if is_valid_placement b c.x.val c.y.val size c.dir then
      some (place_cells b c.x.val c.y.val size c.dir, c, cs)
    else
      try_place b size cs

/-- GameBoard.position_ships (game_model.py lines 42-50): for each ship of
the catalog in order, retry random placements until one fits, commit it,
and record the ship's anchor position and direction.  Returns the final
board and the updated ship list, or none when the draws run out (a
non-terminating run). -/
def position_ships : Board → List Ship → List Choice → Option (Board × List Ship)
  | b, [], _ => some (b, [])
  | b, s :: ss, cs =>
    match try_place b s.size cs with
    | none => none
    | some (b1, c, cs1) =>
      match position_ships b1 ss cs1 with
      | none => none
      | some (b2, rest) =>
        some (b2, { s with position := some (c.x.val, c.y.val),
                           direction := some c.dir } :: rest)

/-- The set of cells covered by a run of size cells anchored at (x, y) in
a given direction: the footprint of one placed ship. -/
def shipCells (x y size : Nat) : Direction → Finset (Nat × Nat)
  | .H => (Finset.range size).image (fun k => (x, y + k))
  | .V => (Finset.range size).image (fun k => (x + k, y))

/-- The cells occupied by a ship according to its recorded anchor and
direction; empty when the ship is not yet placed. -/
def cellsOfShip (s : Ship) : Finset (Nat × Nat) :=
  match s.position, s.direction with
  | some (x, y), some d => shipCells x y s.size d
  | _, _ => ∅

/-- The 81 cells of the 9 x 9 grid. -/
def grid : Finset (Nat × Nat) := Finset.range 9 ×ˢ Finset.range 9

/-- Number of grid cells holding the value v. -/
def countVal (b : Board) (v : Nat) : Nat :=
  (grid.filter (fun p => b p.1 p.2 = v)).card

/-- Number of grid cells in state SHIP. -/
def countShip (b : Board) : Nat := countVal b SHIP

/-- Number of grid cells in state HIT. -/
def countHit (b : Board) : Nat := countVal b HIT

/-- A concrete draw sequence for position_ships that places the four
catalog ships horizontally on rows 0 to 3, each accepted at once. -/
def cs0 : List Choice :=
  [⟨0, 0, Direction.H⟩, ⟨1, 0, Direction.H⟩,
   ⟨2, 0, Direction.H⟩, ⟨3, 0, Direction.H⟩]

/-- A sequence of GameBoard.process_shot calls at in-grid indices, the
only indices an accepted coordinate string can denote. -/
def applyShots : GameBoard → List (Fin 9 × Fin 9) → GameBoard
  | g, [] => g
  | g, p :: rest => applyShots (process_shot g p.1.val p.2.val).2 rest

/-- The session invariant of a GameBoard: the hit counter counts the HIT
cells, SHIP and HIT cells together never exceed the 14 catalog cells,
and the catalog sizes sum to 14. -/
def boardInv (g : GameBoard) : Prop :=
  g.hit_count = countHit g.board ∧
  countShip g.board + countHit g.board ≤ 14 ∧
  totalShipSize g = 14

/-- One call of the public GameBoard interface: position_ships with its
stream of random draws, or process_shot at an in-grid cell. -/
inductive Op where
  | place (cs : List Choice)
  | shot (x y : Fin 9)

/-- Effect of one interface call on a GameBoard; none when position_ships
fails to terminate on the given draws. -/
def runOp (g : GameBoard) : Op → Option GameBoard
  | .place cs =>
    match position_ships g.board g.ships cs with
    | none => none
    | some (b, ss) => some { g with board := b, ships := ss }
  | .shot x y => some (process_shot g x.val y.val).2

/-- A terminating run of a sequence of interface calls from a state. -/
def runOps : GameBoard → List Op → Option GameBoard
  | g, [] => some g
  | g, op :: ops =>
    match runOp g op with
    | none => none
    | some g1 => runOps g1 ops

/-- Number of position_ships calls in a sequence of interface calls. -/
def opCount (ops : List Op) : Nat :=
  ops.countP (fun op => match op with | .place _ => true | .shot _ _ => false)

/-- A second draw sequence placing the catalog on rows 4 to 7, all cells
disjoint from those chosen by cs0. -/
def cs1 : List Choice :=
  [⟨4, 0, Direction.H⟩, ⟨5, 0, Direction.H⟩,
   ⟨6, 0, Direction.H⟩, ⟨7, 0, Direction.H⟩]

/-- A call sequence with two position_ships calls followed by fifteen
shots on ship cells: all fourteen cells placed by cs0 and one cell
placed by cs1. -/
def overshootOps : List Op :=
  [Op.place cs0, Op.place cs1,
   Op.shot 0 0, Op.shot 0 1, Op.shot 0 2, Op.shot 0 3, Op.shot 0 4,
   Op.shot 1 0, Op.shot 1 1, Op.shot 1 2, Op.shot 1 3,
   Op.shot 2 0, Op.shot 2 1, Op.shot 2 2,
   Op.shot 3 0, Op.shot 3 1,
   Op.shot 4 0]

/-- A call sequence with a single position_ships call and one shot. -/
def onePlaceOps : List Op := [Op.place cs0, Op.shot 0 0]

/-- A concrete GameBoard used as explicit input for claims about shots at
an already-resolved cell: cell (0, 0) is MISS, counters are nonzero. -/
def missedGame : GameBoard :=
  { board := fun i j => if i = 0 ∧ j = 0 then MISS else 0,
    shot_count := 5, hit_count := 2, ships := shipCatalog }

/-- A concrete GameBoard with a single SHIP cell at (0, 0). -/
def oneShipGame : GameBoard :=
  { board := fun i j => if i = 0 ∧ j = 0 then SHIP else 0,
    shot_count := 3, hit_count := 1, ships := shipCatalog }

/-- The closed tag set of protocol.py (MessageType Enum). -/
inductive MessageType where
  | START_GAME
  | POSITIONING_SHIPS
  | SHIPS_IN_POSITION
  | SHOT
  | HIT
  | MISS
  | GAME_OVER
  | ERROR
  deriving DecidableEq

/-- The Enum value string of each MessageType member (protocol.py lines
9-17). -/
def MessageType.value : MessageType → String
  | .START_GAME => "START_GAME"
  | .POSITIONING_SHIPS => "POSITIONING_SHIPS"
  | .SHIPS_IN_POSITION => "SHIPS_IN_POSITION"
  | .SHOT => "SHOT"
  | .HIT => "HIT"
  | .MISS => "MISS"
  | .GAME_OVER => "GAME_OVER"
  | .ERROR => "ERROR"

/-- The Enum value lookup performed by the call MessageType(x): the
member whose value equals the given string, if any; any other value
raises ValueError. -/
def messageTypeOfValue (s : String) : Option MessageType :=
  if s = "START_GAME" then some MessageType.START_GAME
  else if s = "POSITIONING_SHIPS" then some MessageType.POSITIONING_SHIPS
  else if s = "SHIPS_IN_POSITION" then some MessageType.SHIPS_IN_POSITION
  else if s = "SHOT" then some MessageType.SHOT
  else if s = "HIT" then some MessageType.HIT
  else if s = "MISS" then some MessageType.MISS
  else if s = "GAME_OVER" then some MessageType.GAME_OVER
  else if s = "ERROR" then some MessageType.ERROR
  else none

/-- JSON values as returned by json.loads. -/
inductive JValue where
  | null
  | bool (b : Bool)
  | num (n : Int)
  | str (s : String)
  | arr (elems : List JValue)
  | obj (fields : List (String × JValue))

/-- Python dict key lookup on a decoded JSON object; json.loads keeps at
most one binding per key. -/
def lookupField : List (String × JValue) → String → Option JValue
  | [], _ => none
  | (k, v) :: rest, key => if k = key then some v else lookupField rest key

/-- Outcome of protocol.parse_message: a parsed (type, data) pair, the
InvalidMessageError raised by its except clause, or an uncaught
TypeError from subscripting a non-dict JSON value, an exception that
none of json.JSONDecodeError, KeyError, ValueError matches. -/
inductive ParseOutcome where
  | ok (t : MessageType) (data : JValue)
  | invalidMessageError
  | typeError

/-- protocol.parse_message (protocol.py lines 37-47).  The json.loads
stage is modelled by the argument: none for bytes that are not valid
JSON (json.JSONDecodeError, caught), some v for the decoded value.  On
a decoded object, a missing type key raises KeyError (caught) and a
type value that is no Enum member raises ValueError (caught), both
turned into InvalidMessageError; the data key defaults to the empty
object via parsed.get; subscripting a decoded non-object value raises
TypeError, which the except clause does not catch. -/
def parse_message : Option JValue → ParseOutcome
  | none => ParseOutcome.invalidMessageError
  | some (JValue.obj fields) =>
    match lookupField fields "type" with
    | none => ParseOutcome.invalidMessageError
    | some (JValue.str s) =>
      match messageTypeOfValue s with
      | some t =>
        ParseOutcome.ok t
          (match lookupField fields "data" with
           | some d => d
           | none => JValue.obj [])
      | none => ParseOutcome.invalidMessageError
    | some _ => ParseOutcome.invalidMessageError
  | some _ => ParseOutcome.typeError

/-- protocol.create_message (protocol.py lines 27-35), modelled at the
JSON value level: the serialized newline-terminated frame decodes back
to exactly this object, json.dumps and json.loads being mutually
inverse on it.  The Python default data or {} turns both None and the
empty dict into the empty dict. -/
def create_message (t : MessageType) (data : Option (List (String × JValue))) : JValue :=
  JValue.obj [("type", JValue.str t.value),
              ("data", JValue.obj (match data with | none => [] | some d => d))]

/-- Python str.upper on one character.  Char.toUpper covers the basic
latin range; beyond it the Unicode full uppercase table maps exactly
two characters to a single basic-latin letter: the dotless ı (U+0131)
to I and the long ſ (U+017F) to S.  Every other character either keeps
its case class outside basic latin or expands to several characters
(such as the ligatures FF, FI, FL, ST and the German SS), and no such
expansion occurs inside ABCDEFGHI, so on the membership test performed
by validate_coordinate this function agrees with str.upper on every
Unicode character. -/
def py_upper (c : Char) : Char :=
  if c = 'ı' then 'I'
  else if c = 'ſ' then 'S'
  else c.toUpper

/-- protocol.validate_coordinate (protocol.py lines 49-58): false unless
the string has exactly two characters; otherwise the first character is
upper-cased (str.upper, modelled by py_upper) and looked up in
ABCDEFGHI, and the second character is looked up in 123456789. -/
def validate_coordinate (coord : String) : Bool :=
  match coord.data with
  | [c, r] => "ABCDEFGHI".data.contains (py_upper c) && "123456789".data.contains r
  | _ => false

/-- The board of the legacy server's Battleship class (server.py line
18): a 9 x 9 integer grid holding 0 for empty, 1 for ship, -1 for hit. -/
abbrev SBoard := Nat → Nat → Int

/-- The state of one server-side Battleship game (server.py lines
17-28); the ship dict only contributes its fixed size list. -/
structure SGame where
  board : SBoard
  shot_count : Nat
  hit_count : Nat

/-- The sizes in Battleship.ships of server.py (lines 21-26). -/
def svShipSizes : List Nat := [5, 4, 3, 2]

/-- Battleship.game_over (server.py lines 63-67). -/
def sv_game_over (g : SGame) : Bool :=
  g.hit_count == svShipSizes.sum

/-- Battleship.is_valid_coord (server.py lines 93-98): the regular
expression [A-I][1-9] followed by one newline, anchored at both ends. -/
def sv_is_valid_coord (s : String) : Bool :=
  match s.data with
  | [c, r, nl] =>
    "ABCDEFGHI".data.contains c && "123456789".data.contains r && nl == '\n'
  | _ => false

/-- Battleship.coord_to_indicies (server.py lines 70-76) on an accepted
coordinate string: the letter's alphabet index and the digit value
minus one. -/
def sv_coord_to_indices (s : String) : Nat × Nat :=
  ("ABCDEFGHI".data.indexOf (s.data.getD 0 ' '),
   (s.data.getD 1 '0').toNat - 48 - 1)

/-- Functional update of one server board cell. -/
def setCellI (b : SBoard) (x y : Nat) (v : Int) : SBoard :=
  fun i j => if i = x ∧ j = y then v else b i j

/-- The received-data coercion of server.py line 156: an empty read is
replaced by the text null before validation. -/
def null_coerce (s : String) : String := if s = "" then "null" else s

/-- One iteration of the shot loop of BattleshipServer.handle_client
(server.py lines 154-184), entered while the game is not over, applied
to the received line.  Returns the messages the server sends, the
updated state, and whether the connection is closed afterwards.  An
invalid coordinate breaks out of the loop (lines 159-163), reaching the
final game-over check and close(); a valid one answers HIT or MISS,
updates board and counters (lines 165-177), and when the loop condition
then fails the final shot count is sent and the connection closed
(lines 179-184). -/
def handle_shot (g : SGame) (recvd : String) : List String × SGame × Bool :=
  let coord := null_coerce recvd
  if sv_is_valid_coord coord = false then
    ((if sv_game_over g then [toString g.shot_count] else []), g, true)
  else
    let xy := sv_coord_to_indices coord
    if g.board xy.1 xy.2 = 1 then
      let g2 : SGame :=
        SGame.mk (setCellI g.board xy.1 xy.2 (-1)) (g.shot_count + 1) (g.hit_count + 1)
      if sv_game_over g2 then (["HIT\n", toString g2.shot_count], g2, true)
      else (["HIT\n"], g2, false)
    else
      let g2 : SGame := SGame.mk g.board (g.shot_count + 1) g.hit_count
      if sv_game_over g2 then (["MISS\n", toString g2.shot_count], g2, true)
      else (["MISS\n"], g2, false)

/-- A server game state with an all-empty board and zero counters. -/
def sg0 : SGame := SGame.mk (fun _ _ => 0) 0 0

/-- C1 counterexample: cell (0, 0) of missedGame is already MISS, and
process_shot there leaves the shot counter at 5 instead of incrementing
it to 6 as the claim states (game_model.py lines 86-87 return without
touching shot_count). -/
theorem C1_counterexample :
    missedGame.board 0 0 = MISS ∧
    (process_shot missedGame 0 0).2.shot_count = 5 ∧
    ¬ (process_shot missedGame 0 0).2.shot_count = missedGame.shot_count + 1 := by
  refine ⟨rfl, ?_, ?_⟩ <;> decide

/-- C1 amended: a shot at an in-range cell that is already HIT or MISS
changes nothing at all, not even the shot counter, and returns
(False, False); consequently a second shot at any coordinate is always
such a no-op, whatever the first shot did. -/
theorem C1_amended (g : GameBoard) (x y : Nat) (hx : x < 9) (hy : y < 9) :
    (g.board x y = HIT ∨ g.board x y = MISS →
      process_shot g x y = ((false, false), g)) ∧
    process_shot (process_shot g x y).2 x y
      = ((false, false), (process_shot g x y).2) := by
  constructor
  · rintro (h | h) <;> simp [process_shot, h, SHIP, EMPTY, HIT, MISS]
  · by_cases h1 : g.board x y = SHIP
    · simp [process_shot, h1, setCell, SHIP, EMPTY, HIT]
    · by_cases h0 : g.board x y = EMPTY
      · simp [process_shot, h1, h0, setCell, SHIP, EMPTY, MISS]
      · simp [process_shot, h1, h0]

/-- C1 witness: the amended statement applied at the concrete state
missedGame and the in-range cell (0, 0), which is already MISS. -/
theorem C1_witness :
    missedGame.board 0 0 = MISS ∧
    process_shot missedGame 0 0 = ((false, false), missedGame) :=
  ⟨rfl, (C1_amended missedGame 0 0 (by decide) (by decide)).1 (Or.inr rfl)⟩

/-- C3: a shot at an in-range SHIP cell marks the cell HIT, increments
both counters by one, reports a hit, and reports game over exactly when
the new hit count reaches the 14 total ship cells. -/
theorem C3_theorem (g : GameBoard) (x y : Nat) (hx : x < 9) (hy : y < 9)
    (hcell : g.board x y = SHIP) (htot : totalShipSize g = 14) :
    (process_shot g x y).1.1 = true ∧
    (process_shot g x y).2.board x y = HIT ∧
    (process_shot g x y).2.hit_count = g.hit_count + 1 ∧
    (process_shot g x y).2.shot_count = g.shot_count + 1 ∧
    ((process_shot g x y).1.2 = true ↔ g.hit_count + 1 = 14) := by
  refine ⟨?_, ?_, ?_, ?_, ?_⟩ <;>
    simp [process_shot, hcell, setCell, is_game_over, totalShipSize,
      totalShipSize] <;>
    simp [totalShipSize] at htot <;>
    omega

/-- C3 witness: the theorem applied at the concrete state oneShipGame and
its SHIP cell (0, 0); the shot is a hit and the game is not yet over. -/
theorem C3_witness :
    oneShipGame.board 0 0 = SHIP ∧
    (process_shot oneShipGame 0 0).1.1 = true ∧
    (process_shot oneShipGame 0 0).2.hit_count = oneShipGame.hit_count + 1 :=
  ⟨rfl,
   (C3_theorem oneShipGame 0 0 (by decide) (by decide) rfl (by decide)).1,
   (C3_theorem oneShipGame 0 0 (by decide) (by decide) rfl (by decide)).2.2.1⟩

/-- Membership in a horizontal run footprint, unfolded to arithmetic. -/
lemma mem_shipCells_H {i j x y size : Nat} :
    (i, j) ∈ shipCells x y size Direction.H ↔ i = x ∧ y ≤ j ∧ j < y + size := by
  simp only [shipCells, Finset.mem_image, Finset.mem_range, Prod.mk.injEq]
  constructor
  · rintro ⟨k, hk, rfl, rfl⟩
    omega
  · rintro ⟨rfl, h1, h2⟩
    exact ⟨j - y, by omega, rfl, by omega⟩

/-- Membership in a vertical run footprint, unfolded to arithmetic. -/
lemma mem_shipCells_V {i j x y size : Nat} :
    (i, j) ∈ shipCells x y size Direction.V ↔ j = y ∧ x ≤ i ∧ i < x + size := by
  simp only [shipCells, Finset.mem_image, Finset.mem_range, Prod.mk.injEq]
  constructor
  · rintro ⟨k, hk, rfl, rfl⟩
    omega
  · rintro ⟨rfl, h1, h2⟩
    exact ⟨i - x, by omega, by omega, rfl⟩

/-- Pointwise description of the slice assignment of place_cells. -/
lemma place_cells_eq (b : Board) (x y size : Nat) (d : Direction) (i j : Nat) :
    place_cells b x y size d i j
      = if (i, j) ∈ shipCells x y size d then SHIP else b i j := by
  cases d
  · simp [place_cells, mem_shipCells_H]
  · simp [place_cells, mem_shipCells_V]

/-- A run of size cells has exactly size cells. -/
lemma card_shipCells (x y size : Nat) (d : Direction) :
    (shipCells x y size d).card = size := by
  cases d
  · rw [shipCells, Finset.card_image_of_injective _ (fun a b h => by
      simp only [Prod.mk.injEq] at h
      omega), Finset.card_range]
  · rw [shipCells, Finset.card_image_of_injective _ (fun a b h => by
      simp only [Prod.mk.injEq] at h
      omega), Finset.card_range]

/-- What a successful is_valid_placement check guarantees about the run:
inside the grid, and every covered cell is EMPTY. -/
lemma is_valid_placement_spec {b : Board} {x y size : Nat} {d : Direction}
    (hv : is_valid_placement b x y size d = true) (hx : x < 9) (hy : y < 9) :
    ∀ p ∈ shipCells x y size d, p.1 < 9 ∧ p.2 < 9 ∧ b p.1 p.2 = EMPTY := by
  rintro ⟨i, j⟩ hm
  cases d
  · simp only [is_valid_placement, Bool.and_eq_true, decide_eq_true_eq,
      List.all_eq_true, List.mem_range, beq_iff_eq] at hv
    rw [mem_shipCells_H] at hm
    obtain ⟨rfl, h1, h2⟩ := hm
    obtain ⟨hb, hall⟩ := hv
    have he := hall (j - y) (by omega)
    have hj : y + (j - y) = j := by omega
    rw [hj] at he
    exact ⟨hx, by omega, he⟩
  · simp only [is_valid_placement, Bool.and_eq_true, decide_eq_true_eq,
      List.all_eq_true, List.mem_range, beq_iff_eq] at hv
    rw [mem_shipCells_V] at hm
    obtain ⟨rfl, h1, h2⟩ := hm
    obtain ⟨hb, hall⟩ := hv
    have he := hall (i - x) (by omega)
    have hi : x + (i - x) = i := by omega
    rw [hi] at he
    exact ⟨by omega, hy, he⟩

/-- Placing a ship never erases a SHIP cell. -/
lemma place_cells_mono {b : Board} {x y size : Nat} {d : Direction} {i j : Nat}
    (h : b i j = SHIP) : place_cells b x y size d i j = SHIP := by
  rw [place_cells_eq]
  split
  · rfl
  · exact h

/-- Placing a ship on EMPTY cells neither creates nor destroys HIT cells. -/
lemma place_cells_hit_iff {b : Board} {x y size : Nat} {d : Direction}
    (hcells : ∀ p ∈ shipCells x y size d, p.1 < 9 ∧ p.2 < 9 ∧ b p.1 p.2 = EMPTY)
    (i j : Nat) :
    place_cells b x y size d i j = HIT ↔ b i j = HIT := by
  rw [place_cells_eq]
  split
  case isTrue h =>
    have h0 := (hcells _ h).2.2
    constructor
    · intro hc
      exact absurd hc (by decide)
    · intro hc
      rw [h0] at hc
      exact absurd hc (by decide)
  case isFalse h => exact Iff.rfl

/-- Placing a ship on a run of EMPTY cells adds exactly size SHIP cells. -/
lemma countShip_place_cells {b : Board} {x y size : Nat} {d : Direction}
    (hcells : ∀ p ∈ shipCells x y size d, p.1 < 9 ∧ p.2 < 9 ∧ b p.1 p.2 = EMPTY) :
    countShip (place_cells b x y size d) = countShip b + size := by
  unfold countShip countVal
  have hsub : shipCells x y size d ⊆ grid := by
    intro p hp
    obtain ⟨h1, h2, _⟩ := hcells p hp
    simp only [grid, Finset.mem_product, Finset.mem_range]
    exact ⟨h1, h2⟩
  have hdisj :
      Disjoint (grid.filter (fun p => b p.1 p.2 = SHIP)) (shipCells x y size d) := by
    rw [Finset.disjoint_left]
    intro p hp hpc
    have h1 : b p.1 p.2 = SHIP := (Finset.mem_filter.mp hp).2
    have h0 : b p.1 p.2 = EMPTY := (hcells p hpc).2.2
    rw [h1] at h0
    exact absurd h0 (by decide)
  have hset : grid.filter (fun p => place_cells b x y size d p.1 p.2 = SHIP)
      = grid.filter (fun p => b p.1 p.2 = SHIP) ∪ shipCells x y size d := by
    ext p
    by_cases hm : p ∈ shipCells x y size d
    · simp [Finset.mem_filter, Finset.mem_union, hm, hsub hm, place_cells_eq]
    · simp [Finset.mem_filter, Finset.mem_union, hm, place_cells_eq]
  rw [hset, Finset.card_union_of_disjoint hdisj, card_shipCells]

/-- What a successful try_place call did: it committed the first accepted
draw, whose validity check passed on the board as it then was. -/
lemma try_place_spec {b : Board} {size : Nat} :
    ∀ {cs : List Choice} {b' : Board} {c : Choice} {cs' : List Choice},
      try_place b size cs = some (b', c, cs') →
      b' = place_cells b c.x.val c.y.val size c.dir ∧
      is_valid_placement b c.x.val c.y.val size c.dir = true := by
  intro cs
  induction cs with
  | nil =>
    intro b' c cs' h
    simp [try_place] at h
  | cons c0 rest ih =>
    intro b' c cs' h
    rw [try_place] at h
    by_cases hv : is_valid_placement b c0.x.val c0.y.val size c0.dir = true
    · rw [if_pos hv] at h
      simp only [Option.some.injEq, Prod.mk.injEq] at h
      obtain ⟨rfl, rfl, rfl⟩ := h
      exact ⟨rfl, hv⟩
    · rw [if_neg hv] at h
      exact ih h

/-- Behaviour of a terminating run of position_ships over any base board:
the SHIP-cell count grows by the total catalog size, ship sizes are kept,
SHIP cells are never erased, HIT cells are untouched, every placed ship
records an in-grid run whose cells were not SHIP before and are SHIP
after, and the placed runs are pairwise disjoint. -/
lemma position_ships_spec :
    ∀ (ships : List Ship) (b : Board) (cs : List Choice) (b' : Board)
      (placed : List Ship),
      position_ships b ships cs = some (b', placed) →
      countShip b' = countShip b + (ships.map Ship.size).sum ∧
      placed.map Ship.size = ships.map Ship.size ∧
      (∀ i j, b i j = SHIP → b' i j = SHIP) ∧
      (∀ i j, b' i j = HIT ↔ b i j = HIT) ∧
      (∀ s ∈ placed, ∃ x y d, s.position = some (x, y) ∧ s.direction = some d ∧
        cellsOfShip s = shipCells x y s.size d ∧
        ∀ p ∈ shipCells x y s.size d,
          p.1 < 9 ∧ p.2 < 9 ∧ b p.1 p.2 ≠ SHIP ∧ b' p.1 p.2 = SHIP) ∧
      List.Pairwise (fun s t => Disjoint (cellsOfShip s) (cellsOfShip t)) placed := by
  intro ships
  induction ships with
  | nil =>
    intro b cs b' placed h
    rw [position_ships] at h
    simp only [Option.some.injEq, Prod.mk.injEq] at h
    obtain ⟨rfl, rfl⟩ := h
    exact ⟨by simp, rfl, fun i j hij => hij, fun i j => Iff.rfl, by simp,
      List.Pairwise.nil⟩
  | cons s ss ih =>
    intro b cs b' placed h
    rw [position_ships] at h
    split at h
    · exact Option.noConfusion h
    · rename_i b1 c cs1 htp
      split at h
      · exact Option.noConfusion h
      · rename_i b2 rest hps
        simp only [Option.some.injEq, Prod.mk.injEq] at h
        obtain ⟨rfl, rfl⟩ := h
        obtain ⟨rfl, hv⟩ := try_place_spec htp
        have hcells := is_valid_placement_spec hv c.x.isLt c.y.isLt
        obtain ⟨ihcount, ihsizes, ihmono, ihhit, ihplaced, ihpw⟩ :=
          ih _ _ _ _ hps
        have hnewcell : ∀ p ∈ shipCells c.x.val c.y.val s.size c.dir,
            place_cells b c.x.val c.y.val s.size c.dir p.1 p.2 = SHIP := by
          intro p hp
          rw [place_cells_eq]
          simp [hp]
        refine ⟨?_, ?_, ?_, ?_, ?_, ?_⟩
        · rw [ihcount, countShip_place_cells hcells]
          simp only [List.map_cons, List.sum_cons]
          omega
        · simpa using ihsizes
        · intro i j hij
          exact ihmono i j (place_cells_mono hij)
        · intro i j
          rw [ihhit i j, place_cells_hit_iff hcells i j]
        · intro t ht
          rcases List.mem_cons.mp ht with rfl | ht
          · refine ⟨c.x.val, c.y.val, c.dir, rfl, rfl, rfl, ?_⟩
            intro p hp
            obtain ⟨h1, h2, h0⟩ := hcells p hp
            refine ⟨h1, h2, ?_, ihmono p.1 p.2 (hnewcell p hp)⟩
            rw [h0]
            decide
          · obtain ⟨x, y, d, hpos, hdir, hcof, hrun⟩ := ihplaced t ht
            refine ⟨x, y, d, hpos, hdir, hcof, ?_⟩
            intro p hp
            obtain ⟨h1, h2, hnot, hafter⟩ := hrun p hp
            refine ⟨h1, h2, ?_, hafter⟩
            intro hb
            exact hnot (place_cells_mono hb)
        · refine List.Pairwise.cons ?_ ihpw
          intro t ht
          obtain ⟨x, y, d, hpos, hdir, hcof, hrun⟩ := ihplaced t ht
          rw [Finset.disjoint_left]
          intro p hp hpt
          rw [hcof] at hpt
          exact (hrun p hpt).2.2.1 (hnewcell p hp)

/-- C4: the catalog ship sizes sum to 14, and any terminating run of
position_ships on a fresh board leaves exactly 14 SHIP cells, each
placed ship occupying a contiguous horizontal or vertical run fully
inside the 9 x 9 grid made of SHIP cells, with the runs of distinct
ships pairwise disjoint, whatever the sequence of random draws. -/
theorem C4_theorem (cs : List Choice) (b : Board) (placed : List Ship)
    (h : position_ships initBoard shipCatalog cs = some (b, placed)) :
    (shipCatalog.map Ship.size).sum = 14 ∧
    countShip b = 14 ∧
    (∀ s ∈ placed, ∃ x y d, s.position = some (x, y) ∧ s.direction = some d ∧
      cellsOfShip s = shipCells x y s.size d ∧
      ∀ p ∈ cellsOfShip s, p.1 < 9 ∧ p.2 < 9 ∧ b p.1 p.2 = SHIP) ∧
    List.Pairwise (fun s t => Disjoint (cellsOfShip s) (cellsOfShip t)) placed := by
  obtain ⟨hcount, hsizes, hmono, hhit, hplaced, hpw⟩ :=
    position_ships_spec shipCatalog initBoard cs b placed h
  have hinit : countShip initBoard = 0 := by decide
  refine ⟨by decide, ?_, ?_, hpw⟩
  · rw [hcount, hinit]
    decide
  · intro s hs
    obtain ⟨x, y, d, hpos, hdir, hcof, hrun⟩ := hplaced s hs
    refine ⟨x, y, d, hpos, hdir, hcof, ?_⟩
    intro p hp
    rw [hcof] at hp
    obtain ⟨h1, h2, _, hafter⟩ := hrun p hp
    exact ⟨h1, h2, hafter⟩

/-- C4 witness: the concrete draw sequence cs0 terminates and the theorem
then yields the 14 SHIP cells on the resulting board. -/
theorem C4_witness :
    ∃ b placed, position_ships initBoard shipCatalog cs0 = some (b, placed) ∧
      countShip b = 14 := by
  obtain ⟨b, placed, h⟩ :
      ∃ b placed, position_ships initBoard shipCatalog cs0 = some (b, placed) :=
    ⟨_, _, rfl⟩
  exact ⟨b, placed, h, (C4_theorem cs0 b placed h).2.1⟩

/-- Writing a fresh value v into a cell that did not hold v adds one to
the count of v-cells. -/
lemma countVal_setCell_insert {b : Board} {x y v : Nat} (hx : x < 9) (hy : y < 9)
    (hold : b x y ≠ v) :
    countVal (setCell b x y v) v = countVal b v + 1 := by
  unfold countVal
  have hmem : (x, y) ∈ grid := by
    simp only [grid, Finset.mem_product, Finset.mem_range]
    exact ⟨hx, hy⟩
  have hset : grid.filter (fun p => setCell b x y v p.1 p.2 = v)
      = insert (x, y) (grid.filter (fun p => b p.1 p.2 = v)) := by
    ext p
    by_cases hp : p = (x, y)
    · subst hp
      simp [Finset.mem_filter, hmem, setCell]
    · have hne : ¬(p.1 = x ∧ p.2 = y) := by
        intro hc
        apply hp
        obtain ⟨i, j⟩ := p
        simp only at hc
        simp [hc.1, hc.2]
      rw [Finset.mem_filter, Finset.mem_insert, Finset.mem_filter]
      simp only [setCell, if_neg hne]
      constructor
      · intro hc
        exact Or.inr hc
      · rintro (rfl | hc)
        · exact absurd rfl hp
        · exact hc
  rw [hset, Finset.card_insert_of_not_mem]
  simp [Finset.mem_filter, hold]

/-- Overwriting a cell that held v with a different value w removes one
from the count of v-cells. -/
lemma countVal_setCell_erase {b : Board} {x y v w : Nat} (hx : x < 9) (hy : y < 9)
    (hold : b x y = v) (hne : w ≠ v) :
    countVal b v = countVal (setCell b x y w) v + 1 := by
  unfold countVal
  have hmem : (x, y) ∈ grid := by
    simp only [grid, Finset.mem_product, Finset.mem_range]
    exact ⟨hx, hy⟩
  have hset : grid.filter (fun p => b p.1 p.2 = v)
      = insert (x, y) (grid.filter (fun p => setCell b x y w p.1 p.2 = v)) := by
    ext p
    by_cases hp : p = (x, y)
    · subst hp
      simp [Finset.mem_filter, hmem, hold]
    · have hnep : ¬(p.1 = x ∧ p.2 = y) := by
        intro hc
        apply hp
        obtain ⟨i, j⟩ := p
        simp only at hc
        simp [hc.1, hc.2]
      rw [Finset.mem_filter, Finset.mem_insert, Finset.mem_filter]
      simp only [setCell, if_neg hnep]
      constructor
      · intro hc
        exact Or.inr hc
      · rintro (rfl | hc)
        · exact absurd rfl hp
        · exact hc
  rw [hset, Finset.card_insert_of_not_mem]
  intro hc
  have hval := (Finset.mem_filter.mp hc).2
  simp only [setCell, if_pos (And.intro rfl rfl)] at hval
  exact hne hval

/-- Writing a value w that is not v into a cell that did not hold v
leaves the count of v-cells unchanged. -/
lemma countVal_setCell_other {b : Board} {x y v w : Nat}
    (hbv : b x y ≠ v) (hwv : w ≠ v) :
    countVal (setCell b x y w) v = countVal b v := by
  unfold countVal
  congr 1
  apply Finset.filter_congr
  intro p hp
  by_cases hpc : p.1 = x ∧ p.2 = y
  · simp only [setCell, if_pos hpc]
    rw [hpc.1, hpc.2]
    exact iff_of_false hwv hbv
  · simp [setCell, hpc]

/-- A grid cell holding v makes the count of v-cells positive. -/
lemma countVal_pos_of_cell {b : Board} {x y v : Nat} (hx : x < 9) (hy : y < 9)
    (h : b x y = v) : 0 < countVal b v := by
  apply Finset.card_pos.mpr
  refine ⟨(x, y), Finset.mem_filter.mpr ⟨?_, h⟩⟩
  simp only [grid, Finset.mem_product, Finset.mem_range]
  exact ⟨hx, hy⟩

/-- Counting effect of one process_shot call at an in-grid cell: ships
are untouched, the hit counter never drops, it keeps counting the HIT
cells, the total of SHIP and HIT cells is conserved, and a board without
SHIP cells leaves the hit counter alone. -/
lemma process_shot_spec (g : GameBoard) (x y : Nat) (hx : x < 9) (hy : y < 9) :
    (process_shot g x y).2.ships = g.ships ∧
    g.hit_count ≤ (process_shot g x y).2.hit_count ∧
    (g.hit_count = countHit g.board →
      (process_shot g x y).2.hit_count = countHit (process_shot g x y).2.board) ∧
    countShip (process_shot g x y).2.board + countHit (process_shot g x y).2.board
      = countShip g.board + countHit g.board ∧
    (countShip g.board = 0 → (process_shot g x y).2.hit_count = g.hit_count) := by
  by_cases h1 : g.board x y = SHIP
  · have hhit : countHit (setCell g.board x y HIT) = countHit g.board + 1 :=
      countVal_setCell_insert hx hy (by rw [h1]; decide)
    have hship : countShip g.board = countShip (setCell g.board x y HIT) + 1 :=
      countVal_setCell_erase hx hy h1 (by decide)
    have hpos : 0 < countShip g.board := countVal_pos_of_cell hx hy h1
    have heq : (process_shot g x y).2
        = GameBoard.mk (setCell g.board x y HIT) (g.shot_count + 1) (g.hit_count + 1) g.ships := by
      rw [process_shot, if_pos h1]
    refine ⟨?_, ?_, ?_, ?_, ?_⟩
    · rw [heq]
    · rw [heq]
      exact Nat.le_succ _
    · intro hc
      rw [heq]
      show g.hit_count + 1 = countHit (setCell g.board x y HIT)
      omega
    · rw [heq]
      show countShip (setCell g.board x y HIT) + countHit (setCell g.board x y HIT)
        = countShip g.board + countHit g.board
      omega
    · intro hc
      exact absurd hc (by omega)
  · by_cases h0 : g.board x y = EMPTY
    · have hhit : countHit (setCell g.board x y MISS) = countHit g.board :=
        countVal_setCell_other (by rw [h0]; decide) (by decide)
      have hship : countShip (setCell g.board x y MISS) = countShip g.board :=
        countVal_setCell_other (by rw [h0]; decide) (by decide)
      have heq : (process_shot g x y).2
          = GameBoard.mk (setCell g.board x y MISS) (g.shot_count + 1) g.hit_count g.ships := by
        rw [process_shot, if_neg h1, if_pos h0]
      refine ⟨?_, ?_, ?_, ?_, ?_⟩
      · rw [heq]
      · rw [heq]
      · intro hc
        rw [heq]
        show g.hit_count = countHit (setCell g.board x y MISS)
        omega
      · rw [heq]
        show countShip (setCell g.board x y MISS) + countHit (setCell g.board x y MISS)
          = countShip g.board + countHit g.board
        omega
      · intro hc
        rw [heq]
    · have heq : (process_shot g x y).2 = g := by
        rw [process_shot, if_neg h1, if_neg h0]
      refine ⟨?_, ?_, ?_, ?_, ?_⟩
      · rw [heq]
      · rw [heq]
      · intro hc
        rw [heq]
        exact hc
      · rw [heq]
      · intro hc
        rw [heq]

/-- A sequence of shots preserves the session invariant, never lowers the
hit counter, and keeps a finished game finished. -/
lemma applyShots_spec (l : List (Fin 9 × Fin 9)) :
    ∀ g : GameBoard, boardInv g →
      boardInv (applyShots g l) ∧
      g.hit_count ≤ (applyShots g l).hit_count ∧
      (is_game_over g = true → is_game_over (applyShots g l) = true) := by
  induction l with
  | nil =>
    intro g hinv
    exact ⟨hinv, le_refl _, fun h => h⟩
  | cons p rest ih =>
    intro g hinv
    obtain ⟨hships, hle, hcount, hsum, hstay⟩ :=
      process_shot_spec g p.1.val p.2.val p.1.isLt p.2.isLt
    obtain ⟨hinv1, hinv2, hinv3⟩ := hinv
    have htot1 : totalShipSize (process_shot g p.1.val p.2.val).2 = 14 := by
      unfold totalShipSize at hinv3 ⊢
      rw [hships]
      exact hinv3
    have hinv' : boardInv (process_shot g p.1.val p.2.val).2 :=
      ⟨hcount hinv1, by omega, htot1⟩
    obtain ⟨ha, hb, hc⟩ := ih (process_shot g p.1.val p.2.val).2 hinv'
    rw [applyShots]
    refine ⟨ha, le_trans hle hb, ?_⟩
    intro hgo
    apply hc
    have h14 : g.hit_count = 14 := by
      simp only [is_game_over, beq_iff_eq] at hgo
      rw [hgo, hinv3]
    have hship0 : countShip g.board = 0 := by omega
    simp only [is_game_over, beq_iff_eq]
    rw [hstay hship0, htot1, h14]

/-- C7: with the session invariant in force, is_game_over is true exactly
when the hit counter is 14, is false below 14, and along any sequence of
process_shot calls the hit counter never decreases and a true
is_game_over never turns false again. -/
theorem C7_theorem (g : GameBoard) (l : List (Fin 9 × Fin 9)) (hinv : boardInv g) :
    (is_game_over g = true ↔ g.hit_count = 14) ∧
    (g.hit_count < 14 → is_game_over g = false) ∧
    g.hit_count ≤ (applyShots g l).hit_count ∧
    (is_game_over g = true → is_game_over (applyShots g l) = true) := by
  obtain ⟨ha, hb, hc⟩ := applyShots_spec l g hinv
  refine ⟨?_, ?_, hb, hc⟩
  · simp only [is_game_over, beq_iff_eq, hinv.2.2]
  · intro hlt
    simp only [is_game_over, beq_eq_false_iff_ne, ne_eq, hinv.2.2]
    omega

/-- C7 witness: the freshly constructed GameBoard satisfies the session
invariant and the theorem applies to it with an empty shot list. -/
theorem C7_witness :
    boardInv initGame ∧
    (initGame.hit_count < 14 → is_game_over initGame = false) := by
  have hinv : boardInv initGame := by
    unfold boardInv
    refine ⟨by decide, by decide, by decide⟩
  exact ⟨hinv, (C7_theorem initGame [] hinv).2.1⟩

/-- Invariants along any terminating run of interface calls: the hit
counter keeps counting the HIT cells, the catalog total stays 14, and
SHIP and HIT cells together grow by exactly 14 per position_ships call
and are conserved by shots. -/
lemma runOps_spec :
    ∀ (ops : List Op) (g g' : GameBoard), runOps g ops = some g' →
      g.hit_count = countHit g.board → totalShipSize g = 14 →
      g'.hit_count = countHit g'.board ∧ totalShipSize g' = 14 ∧
      countShip g'.board + countHit g'.board
        = countShip g.board + countHit g.board + 14 * opCount ops := by
  intro ops
  induction ops with
  | nil =>
    intro g g' h h1 h2
    rw [runOps] at h
    simp only [Option.some.injEq] at h
    subst h
    refine ⟨h1, h2, ?_⟩
    simp [opCount]
  | cons op ops ih =>
    intro g g' h h1 h2
    rw [runOps] at h
    split at h
    · exact Option.noConfusion h
    · rename_i g1 hop
      cases op with
      | place cs =>
        rw [runOp] at hop
        split at hop
        · exact Option.noConfusion hop
        · rename_i b ss hps
          simp only [Option.some.injEq] at hop
          subst hop
          obtain ⟨hcount, hsizes, hmono, hhit, hplaced, hpw⟩ :=
            position_ships_spec g.ships g.board cs b ss hps
          have hch : countHit b = countHit g.board := by
            unfold countHit countVal
            congr 1
            exact Finset.filter_congr (fun p _ => hhit p.1 p.2)
          have h1' : g.hit_count = countHit b := by
            rw [hch]
            exact h1
          have h2' : (ss.map Ship.size).sum = 14 := by
            rw [hsizes]
            exact h2
          obtain ⟨ha, hb2, hc⟩ := ih _ g' h h1' h2'
          refine ⟨ha, hb2, ?_⟩
          have hcc : opCount (Op.place cs :: ops) = opCount ops + 1 := by
            simp [opCount, List.countP_cons]
          have hc' : countShip g'.board + countHit g'.board
              = countShip b + countHit b + 14 * opCount ops := hc
          rw [hcc]
          unfold totalShipSize at h2
          omega
      | shot x y =>
        simp only [runOp, Option.some.injEq] at hop
        subst hop
        obtain ⟨hships, hle, hcount, hsum, hstay⟩ :=
          process_shot_spec g x.val y.val x.isLt y.isLt
        have h1' := hcount h1
        have h2' : totalShipSize (process_shot g x.val y.val).2 = 14 := by
          unfold totalShipSize
          rw [hships]
          exact h2
        obtain ⟨ha, hb2, hc⟩ := ih _ g' h h1' h2'
        refine ⟨ha, hb2, ?_⟩
        have hcc : opCount (Op.shot x y :: ops) = opCount ops := by
          simp [opCount, List.countP_cons]
        rw [hcc]
        omega

/-- C10 amended: in every state reachable from a fresh GameBoard by a
terminating sequence of position_ships and process_shot calls, the hit
counter equals the number of HIT cells; when the sequence contains at
most one position_ships call, the hit counter moreover never exceeds
14. -/
theorem C10_amended (ops : List Op) (g : GameBoard)
    (h : runOps initGame ops = some g) :
    g.hit_count = countHit g.board ∧
    (opCount ops ≤ 1 → g.hit_count ≤ 14) := by
  obtain ⟨ha, hb, hc⟩ := runOps_spec ops initGame g h (by decide) (by decide)
  refine ⟨ha, ?_⟩
  intro hle
  have h0 : countShip initGame.board = 0 := by decide
  have h1 : countHit initGame.board = 0 := by decide
  omega

/-- C10 counterexample: after two position_ships calls and fifteen shots
the reachable state holds a hit counter of 15, above the 14 bound the
claim asserts for every reachable state. -/
theorem C10_counterexample :
    (runOps initGame overshootOps).map GameBoard.hit_count = some 15 := by
  decide

/-- C10 witness: a concrete terminating sequence with one position_ships
call, on which the amended theorem applies. -/
theorem C10_witness :
    ∃ g, runOps initGame onePlaceOps = some g ∧
      g.hit_count = countHit g.board ∧ g.hit_count ≤ 14 := by
  obtain ⟨g, hg⟩ : ∃ g, runOps initGame onePlaceOps = some g := ⟨_, rfl⟩
  obtain ⟨ha, hb⟩ := C10_amended onePlaceOps g hg
  exact ⟨g, hg, ha, hb (by decide)⟩

/-- C2 counterexample: on the invalid coordinate Z9 the server sends no
message at all, in particular no ERROR, and the connection is closed
rather than kept open for a further shot (server.py lines 159-163 break
out of the loop and fall through to close()). -/
theorem C2_counterexample :
    (handle_shot sg0 "Z9\n").1 = [] ∧ (handle_shot sg0 "Z9\n").2.2 = true := by
  exact ⟨rfl, rfl⟩

/-- C2 amended: whenever a line received during the shot loop fails the
coordinate validation, the server sends nothing, leaves the board and
both counters untouched, and closes the connection; the turn is not
retried. -/
theorem C2_amended (g : SGame) (s : String)
    (hgo : sv_game_over g = false)
    (hval : sv_is_valid_coord (null_coerce s) = false) :
    handle_shot g s = ([], g, true) := by
  simp only [handle_shot, hval, hgo]
  simp

/-- C2 witness: the amended statement applied to the all-empty server
state and the received line Z9. -/
theorem C2_witness :
    sv_game_over sg0 = false ∧
    sv_is_valid_coord (null_coerce "Z9\n") = false ∧
    handle_shot sg0 "Z9\n" = ([], sg0, true) :=
  ⟨rfl, by decide, C2_amended sg0 "Z9\n" rfl (by decide)⟩

/-- On a basic-latin lower-case letter, Char.toUpper subtracts 32. -/
lemma toUpper_eq_of_lower {c : Char} (hl : c.toNat ≥ 97 ∧ c.toNat ≤ 122) :
    c.toUpper = Char.ofNat (c.toNat - 32) := by
  show (if c.toNat ≥ 97 ∧ c.toNat ≤ 122 then Char.ofNat (c.toNat - 32) else c)
    = Char.ofNat (c.toNat - 32)
  rw [if_pos hl]

/-- Outside the basic-latin lower-case range, Char.toUpper is the
identity. -/
lemma toUpper_eq_of_not_lower {c : Char} (hl : ¬(c.toNat ≥ 97 ∧ c.toNat ≤ 122)) :
    c.toUpper = c := by
  show (if c.toNat ≥ 97 ∧ c.toNat ≤ 122 then Char.ofNat (c.toNat - 32) else c) = c
  rw [if_neg hl]

/-- Upper-casing lands in ABCDEFGHI exactly for those nine letters and
their lower-case forms. -/
lemma toUpper_mem_iff {c : Char} :
    c.toUpper ∈ "ABCDEFGHI".data ↔ c ∈ "ABCDEFGHIabcdefghi".data := by
  by_cases hl : c.toNat ≥ 97 ∧ c.toNat ≤ 122
  · rw [toUpper_eq_of_lower hl]
    have hc : c = Char.ofNat c.toNat := (Char.ofNat_toNat c).symm
    obtain ⟨h1, h2⟩ := hl
    obtain ⟨t, htn⟩ : ∃ t, c.toNat = t := ⟨_, rfl⟩
    rw [htn] at h1 h2 hc
    rw [htn, hc]
    interval_cases t <;> decide
  · rw [toUpper_eq_of_not_lower hl]
    have hd9 : "ABCDEFGHI".data
        = ['A', 'B', 'C', 'D', 'E', 'F', 'G', 'H', 'I'] := rfl
    have hd18 : "ABCDEFGHIabcdefghi".data
        = ['A', 'B', 'C', 'D', 'E', 'F', 'G', 'H', 'I',
           'a', 'b', 'c', 'd', 'e', 'f', 'g', 'h', 'i'] := rfl
    constructor
    · intro h
      rw [hd9] at h
      rw [hd18]
      fin_cases h <;> decide
    · intro h
      rw [hd18] at h
      rw [hd9]
      fin_cases h <;> first
        | decide
        | exact absurd (by decide) hl

/-- The Python upper-casing of a character lands in ABCDEFGHI exactly
for those nine letters, their lower-case forms, and the dotless ı. -/
lemma py_upper_mem_iff {c : Char} :
    py_upper c ∈ "ABCDEFGHI".data ↔ c ∈ "ABCDEFGHIabcdefghiı".data := by
  by_cases h1 : c = 'ı'
  · subst h1
    decide
  · by_cases h2 : c = 'ſ'
    · subst h2
      decide
    · have hp : py_upper c = c.toUpper := by
        unfold py_upper
        rw [if_neg h1, if_neg h2]
      have hsplit : "ABCDEFGHIabcdefghiı".data
          = "ABCDEFGHIabcdefghi".data ++ ['ı'] := rfl
      rw [hp, toUpper_mem_iff, hsplit, List.mem_append]
      constructor
      · intro h
        exact Or.inl h
      · rintro (h | h)
        · exact h
        · have hc : c = 'ı' := by
            simpa using h
          exact absurd hc h1

/-- Full characterization of validate_coordinate: it accepts exactly the
two character strings whose digit lies in 1..9 and whose letter lies in
A..I, in a..i, or is the dotless ı that Python upper-cases to I. -/
lemma validate_coordinate_iff (s : String) :
    validate_coordinate s = true ↔
      ∃ c r, s.data = [c, r] ∧ c ∈ "ABCDEFGHIabcdefghiı".data ∧
        r ∈ "123456789".data := by
  constructor
  · intro h
    rcases hd : s.data with _ | ⟨c, _ | ⟨r, _ | ⟨x, rest⟩⟩⟩
    · have h' : validate_coordinate s = false := by
        unfold validate_coordinate
        rw [hd]
      rw [h'] at h
      exact Bool.noConfusion h
    · have h' : validate_coordinate s = false := by
        unfold validate_coordinate
        rw [hd]
      rw [h'] at h
      exact Bool.noConfusion h
    · have h' : validate_coordinate s
          = ("ABCDEFGHI".data.contains (py_upper c) && "123456789".data.contains r) := by
        unfold validate_coordinate
        rw [hd]
      rw [h', Bool.and_eq_true] at h
      obtain ⟨h1, h2⟩ := h
      exact ⟨c, r, rfl, py_upper_mem_iff.mp (List.elem_iff.mp h1), List.elem_iff.mp h2⟩
    · have h' : validate_coordinate s = false := by
        unfold validate_coordinate
        rw [hd]
      rw [h'] at h
      exact Bool.noConfusion h
  · rintro ⟨c, r, hd, hc, hr⟩
    have h' : validate_coordinate s
        = ("ABCDEFGHI".data.contains (py_upper c) && "123456789".data.contains r) := by
      unfold validate_coordinate
      rw [hd]
    rw [h', Bool.and_eq_true]
    exact ⟨List.elem_iff.mpr (py_upper_mem_iff.mpr hc), List.elem_iff.mpr hr⟩

/-- C5 counterexample: the validator accepts the string ı1 although its
first character is neither an uppercase nor a lowercase letter of A..I,
because Python str.upper maps the dotless ı to I; so the accepted set
is strictly larger than the 81 coordinates read case-insensitively. -/
theorem C5_counterexample :
    validate_coordinate "ı1" = true ∧ ¬ ('ı' ∈ "ABCDEFGHIabcdefghi".data) := by
  decide

/-- C5 amended: validate_coordinate accepts exactly the two character
strings whose digit is in 1..9 and whose letter is in A..I, in a..i, or
the dotless ı whose Python uppercase is I; in particular all 81
uppercase coordinates and their lower-case variants are accepted, and
J1, A0, A10, the empty string and every single-character string are
rejected. -/
theorem C5_theorem :
    (∀ s : String, validate_coordinate s = true ↔
      ∃ c r, s.data = [c, r] ∧ c ∈ "ABCDEFGHIabcdefghiı".data ∧
        r ∈ "123456789".data) ∧
    validate_coordinate "J1" = false ∧
    validate_coordinate "A0" = false ∧
    validate_coordinate "A10" = false ∧
    validate_coordinate "" = false ∧
    (∀ c : Char, validate_coordinate (String.mk [c]) = false) :=
  ⟨fun s => validate_coordinate_iff s, by decide, by decide, by decide,
   by decide, fun c => rfl⟩

/-- C5 witness: the theorem applied at the lower-case coordinate b3,
which the validator accepts. -/
theorem C5_witness : validate_coordinate "b3" = true :=
  (C5_theorem.1 "b3").mpr ⟨'b', '3', rfl, by decide, by decide⟩

/-- C8 counterexample: the validator accepts a1 although its first
character is not an uppercase letter in A..I, because the source
upper-cases the letter itself before the membership test. -/
theorem C8_counterexample :
    validate_coordinate "a1" = true ∧ ¬ ('a' ∈ "ABCDEFGHI".data) := by
  decide

/-- C8 amended: validate_coordinate accepts exactly the strings of two
characters whose first character, once upper-cased by Python str.upper
(which sends a..i and the dotless ı to A..I), lies in A..I and whose
second character is a digit in 1..9. -/
theorem C8_amended (s : String) :
    validate_coordinate s = true ↔
      s.data.length = 2 ∧ py_upper (s.data.getD 0 'a') ∈ "ABCDEFGHI".data ∧
        s.data.getD 1 'a' ∈ "123456789".data := by
  constructor
  · intro h
    obtain ⟨c, r, hd, hc, hr⟩ := (validate_coordinate_iff s).mp h
    rw [hd]
    exact ⟨rfl, py_upper_mem_iff.mpr hc, hr⟩
  · rintro ⟨hlen, hc, hr⟩
    apply (validate_coordinate_iff s).mpr
    rcases hd : s.data with _ | ⟨c, _ | ⟨r, _ | ⟨x, rest⟩⟩⟩
    · rw [hd] at hlen
      simp at hlen
    · rw [hd] at hlen
      simp at hlen
    · rw [hd] at hc hr
      exact ⟨c, r, rfl, py_upper_mem_iff.mp hc, hr⟩
    · rw [hd] at hlen
      simp at hlen

/-- C8 witness: the amended characterization applied at the uppercase
coordinate A1. -/
theorem C8_witness : validate_coordinate "A1" = true :=
  (C8_amended "A1").mpr ⟨rfl, by decide, by decide⟩

/-- The Enum lookup MessageType(s) succeeds with member t exactly when s
is t's value string. -/
lemma messageTypeOfValue_eq {s : String} {t : MessageType} :
    messageTypeOfValue s = some t ↔ s = t.value := by
  constructor
  · intro h
    unfold messageTypeOfValue at h
    split_ifs at h <;>
      first
        | (simp only [Option.some.injEq] at h
           subst h
           assumption)
        | exact Option.noConfusion h
  · rintro rfl
    cases t <;> rfl

/-- Branch lemma for parse_message on an object whose type field is a
string: the outcome only depends on the Enum lookup of that string. -/
lemma parse_message_obj_str {fields : List (String × JValue)} {s : String}
    (hl : lookupField fields "type" = some (JValue.str s)) :
    parse_message (some (JValue.obj fields))
      = match messageTypeOfValue s with
        | some t =>
          ParseOutcome.ok t
            (match lookupField fields "data" with
             | some d => d
             | none => JValue.obj [])
        | none => ParseOutcome.invalidMessageError := by
  simp only [parse_message]
  rw [hl]

/-- C6 counterexample: the empty JSON array is valid JSON with no type
tag, yet parse_message raises an uncaught TypeError when subscripting
it (protocol.py line 43), not the InvalidMessageError the claim
requires for every such input. -/
theorem C6_counterexample :
    parse_message (some (JValue.arr [])) = ParseOutcome.typeError ∧
    parse_message (some (JValue.arr [])) ≠ ParseOutcome.invalidMessageError :=
  ⟨rfl, fun h => ParseOutcome.noConfusion h⟩

/-- C6 amended: parse_message raises InvalidMessageError exactly when
the input is not valid JSON or is a JSON object whose type field is
missing or is not the value string of one of the eight tags; decoded
non-object values instead raise an uncaught TypeError, and a well
formed SHOT object whose payload lacks a coordinate key is returned as
(SHOT, payload) without raising. -/
theorem C6_amended :
    (∀ j : Option JValue, parse_message j = ParseOutcome.invalidMessageError ↔
      (j = none ∨ ∃ fields, j = some (JValue.obj fields) ∧
        ∀ t : MessageType, lookupField fields "type" ≠ some (JValue.str t.value))) ∧
    (∀ fields payload,
      lookupField fields "type" = some (JValue.str "SHOT") →
      lookupField fields "data" = some (JValue.obj payload) →
      lookupField payload "coordinate" = none →
      parse_message (some (JValue.obj fields))
        = ParseOutcome.ok MessageType.SHOT (JValue.obj payload)) := by
  constructor
  · intro j
    cases j with
    | none =>
      simp [parse_message]
    | some v =>
      cases v with
      | obj fields =>
        rcases hl : lookupField fields "type" with _ | v2
        · have hpm : parse_message (some (JValue.obj fields))
              = ParseOutcome.invalidMessageError := by
            simp only [parse_message]
            rw [hl]
          rw [hpm]
          constructor
          · intro _
            refine Or.inr ⟨fields, rfl, fun t => ?_⟩
            rw [hl]
            exact fun hc => Option.noConfusion hc
          · intro _
            rfl
        · cases v2 with
          | str s2 =>
            rcases hmt : messageTypeOfValue s2 with _ | t2
            · have hpm : parse_message (some (JValue.obj fields))
                  = ParseOutcome.invalidMessageError := by
                rw [parse_message_obj_str hl, hmt]
              rw [hpm]
              constructor
              · intro _
                refine Or.inr ⟨fields, rfl, fun t => ?_⟩
                rw [hl]
                intro hc
                simp only [Option.some.injEq, JValue.str.injEq] at hc
                rw [hc] at hmt
                rw [messageTypeOfValue_eq.mpr rfl] at hmt
                exact Option.noConfusion hmt
              · intro _
                rfl
            · have hs2 : s2 = t2.value := messageTypeOfValue_eq.mp hmt
              have hpm : parse_message (some (JValue.obj fields))
                  = ParseOutcome.ok t2
                      (match lookupField fields "data" with
                       | some d => d
                       | none => JValue.obj []) := by
                rw [parse_message_obj_str hl, hmt]
              rw [hpm]
              constructor
              · intro hc
                exact ParseOutcome.noConfusion hc
              · rintro (hc | ⟨fields2, hf, hall⟩)
                · exact Option.noConfusion hc
                · simp only [Option.some.injEq, JValue.obj.injEq] at hf
                  subst hf
                  exact absurd (hs2 ▸ hl) (hall t2)
          | null =>
            have hpm : parse_message (some (JValue.obj fields))
                = ParseOutcome.invalidMessageError := by
              simp only [parse_message]
              rw [hl]
            rw [hpm]
            constructor
            · intro _
              refine Or.inr ⟨fields, rfl, fun t => ?_⟩
              rw [hl]
              intro hc
              simp at hc
            · intro _
              rfl
          | bool b =>
            have hpm : parse_message (some (JValue.obj fields))
                = ParseOutcome.invalidMessageError := by
              simp only [parse_message]
              rw [hl]
            rw [hpm]
            constructor
            · intro _
              refine Or.inr ⟨fields, rfl, fun t => ?_⟩
              rw [hl]
              intro hc
              simp at hc
            · intro _
              rfl
          | num n =>
            have hpm : parse_message (some (JValue.obj fields))
                = ParseOutcome.invalidMessageError := by
              simp only [parse_message]
              rw [hl]
            rw [hpm]
            constructor
            · intro _
              refine Or.inr ⟨fields, rfl, fun t => ?_⟩
              rw [hl]
              intro hc
              simp at hc
            · intro _
              rfl
          | arr elems =>
            have hpm : parse_message (some (JValue.obj fields))
                = ParseOutcome.invalidMessageError := by
              simp only [parse_message]
              rw [hl]
            rw [hpm]
            constructor
            · intro _
              refine Or.inr ⟨fields, rfl, fun t => ?_⟩
              rw [hl]
              intro hc
              simp at hc
            · intro _
              rfl
          | obj fields2 =>
            have hpm : parse_message (some (JValue.obj fields))
                = ParseOutcome.invalidMessageError := by
              simp only [parse_message]
              rw [hl]
            rw [hpm]
            constructor
            · intro _
              refine Or.inr ⟨fields, rfl, fun t => ?_⟩
              rw [hl]
              intro hc
              simp at hc
            · intro _
              rfl
      | null =>
        constructor
        · intro hc
          exact ParseOutcome.noConfusion hc
        · rintro (hc | ⟨fields, hf, hall⟩)
          · exact Option.noConfusion hc
          · simp at hf
      | bool b =>
        constructor
        · intro hc
          exact ParseOutcome.noConfusion hc
        · rintro (hc | ⟨fields, hf, hall⟩)
          · exact Option.noConfusion hc
          · simp at hf
      | num n =>
        constructor
        · intro hc
          exact ParseOutcome.noConfusion hc
        · rintro (hc | ⟨fields, hf, hall⟩)
          · exact Option.noConfusion hc
          · simp at hf
      | str s2 =>
        constructor
        · intro hc
          exact ParseOutcome.noConfusion hc
        · rintro (hc | ⟨fields, hf, hall⟩)
          · exact Option.noConfusion hc
          · simp at hf
      | arr elems =>
        constructor
        · intro hc
          exact ParseOutcome.noConfusion hc
        · rintro (hc | ⟨fields, hf, hall⟩)
          · exact Option.noConfusion hc
          · simp at hf
  · intro fields payload h1 h2 h3
    have hstep : parse_message (some (JValue.obj fields))
        = ParseOutcome.ok MessageType.SHOT
            (match lookupField fields "data" with
             | some d => d
             | none => JValue.obj []) := parse_message_obj_str h1
    rw [hstep, h2]

/-- C6 witness: a SHOT frame whose payload has no coordinate key decodes
to (SHOT, payload) without raising. -/
theorem C6_witness :
    parse_message (some (JValue.obj
        [("type", JValue.str "SHOT"), ("data", JValue.obj [("x", JValue.num 1)])]))
      = ParseOutcome.ok MessageType.SHOT (JValue.obj [("x", JValue.num 1)]) :=
  C6_amended.2 _ _ rfl rfl rfl

/-- C9: decoding a frame built by create_message returns exactly the tag
and payload it was built from, and the empty payload when the payload
was omitted; json.dumps and json.loads are modelled as mutually inverse
on the message object. -/
theorem C9_theorem (t : MessageType) (d : List (String × JValue)) :
    parse_message (some (create_message t (some d)))
      = ParseOutcome.ok t (JValue.obj d) ∧
    parse_message (some (create_message t none))
      = ParseOutcome.ok t (JValue.obj []) := by
  cases t <;> exact ⟨rfl, rfl⟩
